import Mathlib

/-!
Verification of the rclone-commander transfer engine against its
natural-language specification.

The definitions below are a shallow embedding of the Python sources:
  - `src/rclone_commander/progress_parser.py` (regex-driven log parsing,
    log tailing),
  - `src/rclone_commander/rclone_wrapper.py` (directory listing, size query,
    log retention),
  - `src/rclone_commander/main.py` (`_do_copy_operation_async`, the
    sequential copy queue).

Python's `re` regular expressions are embedded by a small backtracking
token matcher (`mtch`/`searchFrom`): each of the three source patterns is
transcribed token by token (literals, greedy `+`/`*` over a character
class, lazy `+?`), preserving `re.search` semantics (leftmost starting
position, greedy pieces try the longest extension first, lazy pieces the
shortest).  Character classes are the ASCII parts of Python's `\d`, `\s`,
`\w` and `.` (the log lines at issue are ASCII).  Machine strings are
`List Char`; file systems are passed explicitly (a file is `Option String`,
a directory a list of entries).
-/

/-- ASCII part of Python's regex class `\d`. -/
def pyDigit (c : Char) : Bool := 48 ≤ c.toNat && c.toNat ≤ 57

/-- ASCII part of Python's regex class `\w` (letters, digits, underscore). -/
def pyWord (c : Char) : Bool :=
  pyDigit c || (65 ≤ c.toNat && c.toNat ≤ 90) || (97 ≤ c.toNat && c.toNat ≤ 122) || c = '_'

/-- ASCII part of Python's regex class `\s` / `str.isspace`. -/
def pySpace (c : Char) : Bool :=
  c = ' ' || c = '\t' || c = '\n' || c = '\r' || c = '\x0b' || c = '\x0c'

/-- Python `str.strip()`: remove whitespace from both ends. -/
def pstrip (s : List Char) : List Char :=
  ((s.dropWhile pySpace).reverse.dropWhile pySpace).reverse

/-- Auxiliary for `splitlines`: accumulate the current line (reversed). -/
def splitlinesAux : List Char → List Char → List (List Char)
  | [], acc => [acc.reverse]
  | '\r' :: '\n' :: rest, acc =>
      acc.reverse :: (match rest with | [] => [] | _ :: _ => splitlinesAux rest [])
  | '\n' :: rest, acc =>
      acc.reverse :: (match rest with | [] => [] | _ :: _ => splitlinesAux rest [])
  | '\r' :: rest, acc =>
      acc.reverse :: (match rest with | [] => [] | _ :: _ => splitlinesAux rest [])
  | c :: rest, acc => splitlinesAux rest (c :: acc)

/-- Python `str.splitlines()` (for the newline characters rclone emits:
`\n`, `\r\n`, `\r`); no trailing empty line for a trailing newline. -/
def splitlines (s : List Char) : List (List Char) :=
  match s with
  | [] => []
  | _ :: _ => splitlinesAux s []

/-- Python `needle in s` substring test. -/
def containsSub (needle : List Char) : List Char → Bool
  | [] => needle.isEmpty
  | c :: rest => needle.isPrefixOf (c :: rest) || containsSub needle rest

/-- Python `int()` on a digits-only string. -/
def digitsToNat (cs : List Char) : Nat := cs.foldl (fun n c => 10 * n + (c.toNat - 48)) 0

/-- Character classes occurring in the three source regexes. -/
inductive CharCls
  | digit     -- \d
  | digitDot  -- [\d.]
  | spc       -- \s
  | word      -- \w
  | anyNoNl   -- .  (anything but newline)
deriving DecidableEq

/-- Membership in a character class. -/
def inCls : CharCls → Char → Bool
  | .digit, c => pyDigit c
  | .digitDot, c => pyDigit c || c = '.'
  | .spc, c => pySpace c
  | .word, c => pyWord c
  | .anyNoNl, c => c ≠ '\n'

/-- One token of a transcribed regex: a literal, a greedy `+`, a greedy `*`,
or a lazy `+?` over a character class.  `grp` tags the capture group the
token belongs to (groups are contiguous token runs in all three patterns). -/
inductive RTok
  | lit (cs : List Char) (grp : Option Nat)
  | plus (c : CharCls) (grp : Option Nat)
  | star (c : CharCls) (grp : Option Nat)
  | plusLazy (c : CharCls) (grp : Option Nat)

/-- Captured groups: association list from group index to captured chars. -/
abbrev Caps := List (Nat × List Char)

/-- Append captured characters to a group (creating it on first use). -/
def addCap : Option Nat → List Char → Caps → Caps
  | none, _, caps => caps
  | some n, cs, [] => [(n, cs)]
  | some n, cs, (m, ds) :: rest =>
      if m = n then (m, ds ++ cs) :: rest else (m, ds) :: addCap (some n) cs rest

/-- Length of the maximal leading run of class characters. -/
def munch (c : CharCls) : List Char → Nat
  | [] => 0
  | x :: xs => if inCls c x then munch c xs + 1 else 0

/-- Try extension lengths `m, m-1, …, 1` (greedy `+`: longest first). -/
def tryDesc (f : Nat → Option Caps) : Nat → Option Caps
  | 0 => none
  | k + 1 => match f (k + 1) with | some r => some r | none => tryDesc f k

/-- Try extension lengths `m, …, 1, 0` (greedy `*`). -/
def tryDescZ (f : Nat → Option Caps) (m : Nat) : Option Caps :=
  match tryDesc f m with | some r => some r | none => f 0

/-- Try extension lengths `lo, lo+1, …` (`fuel` many; lazy `+?`: shortest first). -/
def tryAsc (f : Nat → Option Caps) : Nat → Nat → Option Caps
  | _, 0 => none
  | lo, fuel + 1 => match f lo with | some r => some r | none => tryAsc f (lo + 1) fuel

/-- Backtracking matcher for a token list anchored at the start of `s`
(the rest of `s` may remain unconsumed, as with `re.search`).  The fuel is
always instantiated with the token-list length: every recursive call
consumes one token, so fuel never runs out. -/
def mtch : Nat → List RTok → List Char → Caps → Option Caps
  | _, [], _, caps => some caps
  | 0, _ :: _, _, _ => none
  | fuel + 1, .lit cs g :: ts, s, caps =>
      if cs.isPrefixOf s then mtch fuel ts (s.drop cs.length) (addCap g cs caps) else none
  | fuel + 1, .plus c g :: ts, s, caps =>
      tryDesc (fun k => mtch fuel ts (s.drop k) (addCap g (s.take k) caps)) (munch c s)
  | fuel + 1, .star c g :: ts, s, caps =>
      tryDescZ (fun k => mtch fuel ts (s.drop k) (addCap g (s.take k) caps)) (munch c s)
  | fuel + 1, .plusLazy c g :: ts, s, caps =>
      tryAsc (fun k => mtch fuel ts (s.drop k) (addCap g (s.take k) caps)) 1 (munch c s)

/-- `re.search`: try a match at every start position, leftmost wins. -/
def searchFrom (toks : List RTok) : List Char → Option Caps
  | [] => mtch toks.length toks [] []
  | c :: rest =>
      match mtch toks.length toks (c :: rest) [] with
      | some r => some r
      | none => searchFrom toks rest

/-- `match.group(n)` (all groups of the three patterns always participate). -/
def capGroup (caps : Caps) (n : Nat) : List Char :=
  match caps.find? (fun p => p.1 == n) with
  | some p => p.2
  | none => []

/-- Transcription of `TRANSFERRED_PATTERN` from progress_parser.py:
`Transferred:\s+([\d.]+\s+\w+)\s+/\s+([\d.]+\s+\w+),\s+(\d+)%,\s+([\d.]+\s+\w+/s),\s+ETA\s+(.+)` -/
def TRANSFERRED_PATTERN : List RTok :=
  [ .lit "Transferred:".data none, .plus .spc none,
    .plus .digitDot (some 1), .plus .spc (some 1), .plus .word (some 1),
    .plus .spc none, .lit "/".data none, .plus .spc none,
    .plus .digitDot (some 2), .plus .spc (some 2), .plus .word (some 2),
    .lit ",".data none, .plus .spc none,
    .plus .digit (some 3),
    .lit "%,".data none, .plus .spc none,
    .plus .digitDot (some 4), .plus .spc (some 4), .plus .word (some 4), .lit "/s".data (some 4),
    .lit ",".data none, .plus .spc none, .lit "ETA".data none, .plus .spc none,
    .plus .anyNoNl (some 5) ]

/-- Transcription of `FILES_PATTERN` from progress_parser.py:
`Transferred:\s+(\d+)\s+/\s+(\d+),\s+\d+%` -/
def FILES_PATTERN : List RTok :=
  [ .lit "Transferred:".data none, .plus .spc none,
    .plus .digit (some 1), .plus .spc none, .lit "/".data none, .plus .spc none,
    .plus .digit (some 2), .lit ",".data none, .plus .spc none,
    .plus .digit none, .lit "%".data none ]

/-- Transcription of `TRANSFERRING_PATTERN` from progress_parser.py:
`\*\s+(.+?):\s+(\d+)%\s+/([\d.]+\w+),\s+([\d.]+\s*\w+/s),\s+(.+)` -/
def TRANSFERRING_PATTERN : List RTok :=
  [ .lit "*".data none, .plus .spc none,
    .plusLazy .anyNoNl (some 1), .lit ":".data none, .plus .spc none,
    .plus .digit (some 2), .lit "%".data none, .plus .spc none,
    .lit "/".data none, .plus .digitDot (some 3), .plus .word (some 3),
    .lit ",".data none, .plus .spc none,
    .plus .digitDot (some 4), .star .spc (some 4), .plus .word (some 4), .lit "/s".data (some 4),
    .lit ",".data none, .plus .spc none,
    .plus .anyNoNl (some 5) ]

/-- `TRANSFERRED_PATTERN.search(line)`, returning groups 1–5. -/
def transferredSearch (line : List Char) :
    Option (List Char × List Char × List Char × List Char × List Char) :=
  (searchFrom TRANSFERRED_PATTERN line).map
    (fun caps => (capGroup caps 1, capGroup caps 2, capGroup caps 3, capGroup caps 4, capGroup caps 5))

/-- `FILES_PATTERN.search(line)`, returning groups 1–2. -/
def filesSearch (line : List Char) : Option (List Char × List Char) :=
  (searchFrom FILES_PATTERN line).map (fun caps => (capGroup caps 1, capGroup caps 2))

/-- `TRANSFERRING_PATTERN.search(line)`, returning groups 1–5. -/
def transferringSearch (line : List Char) :
    Option (List Char × List Char × List Char × List Char × List Char) :=
  (searchFrom TRANSFERRING_PATTERN line).map
    (fun caps => (capGroup caps 1, capGroup caps 2, capGroup caps 3, capGroup caps 4, capGroup caps 5))

/-- Shortcut instance: equality of 5-tuples of captured groups is decidable
(typeclass search fails to re-derive the nested product instance inside
larger propositions). -/
instance : DecidableEq (List Char × List Char × List Char × List Char × List Char) :=
  inferInstance

/-- `FileProgress` NamedTuple from progress_parser.py. -/
structure FileProgress where
  filename : String := ""
  percentage : Nat := 0
  size : String := ""
  speed : String := ""
  eta : String := ""
deriving DecidableEq

/-- `ProgressData` NamedTuple from progress_parser.py (the `transferring_files`
tuple becomes a list). -/
structure ProgressData where
  transferred_str : String := ""
  total_str : String := ""
  overall_percentage : Nat := 0
  overall_speed : String := ""
  overall_eta : String := ""
  files_transferred : Nat := 0
  total_files : Nat := 0
  transferring_files : List FileProgress := []
deriving DecidableEq

/-- The `"Transferring:"` section-header test of `parse_log_content`
(line 146): `line.startswith("Transferring:") or "Transferring:" in line`,
applied to the stripped line. -/
def headerTest (line : List Char) : Bool :=
  "Transferring:".data.isPrefixOf line || containsSub "Transferring:".data line

/-- Build the `FileProgress` of a matched per-file line (`parse_log_content`
lines 156–162: groups 1 and 5 are stripped, 3 and 4 are not). -/
def mkFileProgress (g : List Char × List Char × List Char × List Char × List Char) :
    FileProgress :=
  { filename := ⟨pstrip g.1⟩, percentage := digitsToNat g.2.1,
    size := ⟨g.2.2.1⟩, speed := ⟨g.2.2.2.1⟩, eta := ⟨pstrip g.2.2.2.2⟩ }

/-- Loop state of `parse_log_content`: the snapshot being built, the
`found_any` flag, and the accumulated `transferring_files` list. -/
structure LoopSt where
  progress : ProgressData
  found_any : Bool
  transferring : List FileProgress

/-- One iteration of the `while i < len(lines)` loop of `parse_log_content`
(every branch advances `i` by one, so the loop is a fold over the lines).
Branch order as in the source: overall-transferred, files-count, section
header, per-file line, fall-through. -/
def procLine (st : LoopSt) (rawLine : List Char) : LoopSt :=
  let line := pstrip rawLine
  match transferredSearch line with
  | some g =>
      { st with
        progress := { st.progress with
          transferred_str := ⟨g.1⟩, total_str := ⟨g.2.1⟩,
          overall_percentage := digitsToNat g.2.2.1,
          overall_speed := ⟨g.2.2.2.1⟩, overall_eta := ⟨g.2.2.2.2⟩ },
        found_any := true }
  | none =>
  match filesSearch line with
  | some g =>
      { st with
        progress := { st.progress with
          files_transferred := digitsToNat g.1, total_files := digitsToNat g.2 },
        found_any := true }
  | none =>
  if headerTest line then
    { st with transferring := [] }
  else
  match transferringSearch line with
  | some g =>
      let fp := mkFileProgress g
      { st with
        transferring := st.transferring.filter (fun f => f.filename != fp.filename) ++ [fp],
        found_any := true }
  | none => st

/-- Initial loop state (`progress = ProgressData()`, `found_any = False`,
`transferring_files = []`). -/
def initSt : LoopSt := { progress := {}, found_any := false, transferring := [] }

/-- The tail of `parse_log_content` after the loop: install the collected
per-file list if nonempty, return the snapshot only if anything matched. -/
def parse_lines (lines : List (List Char)) : Option ProgressData :=
  let st := lines.foldl procLine initSt
  let progress :=
    if st.transferring.isEmpty then st.progress
    else { st.progress with transferring_files := st.transferring }
  if st.found_any then some progress else none

/-- `parse_log_content` from progress_parser.py. -/
def parse_log_content (content : String) : Option ProgressData :=
  parse_lines (splitlines content.data)

/-- The `ValueError` raised by `NamedTuple._replace` when called with field
names the tuple does not have. -/
inductive ReplaceError
  | unexpectedFieldNames
deriving DecidableEq

/-- `parse_progress_line` from progress_parser.py.  Its third branch calls
`current_data._replace(current_file=…, file_percentage=…, file_size=…,
file_speed=…, file_eta=…)`; `ProgressData` has none of those fields, so
Python raises `ValueError` there — modelled as `Except.error`. -/
def parse_progress_line (line : String) (current_data : Option ProgressData) :
    Except ReplaceError (Option ProgressData) :=
  let cd := current_data.getD {}
  let l := pstrip line.data
  match transferredSearch l with
  | some g =>
      .ok (some { cd with
        transferred_str := ⟨g.1⟩, total_str := ⟨g.2.1⟩,
        overall_percentage := digitsToNat g.2.2.1,
        overall_speed := ⟨g.2.2.2.1⟩, overall_eta := ⟨g.2.2.2.2⟩ })
  | none =>
  match filesSearch l with
  | some g =>
      .ok (some { cd with files_transferred := digitsToNat g.1, total_files := digitsToNat g.2 })
  | none =>
  match transferringSearch l with
  | some _ => .error .unexpectedFieldNames
  | none => .ok none

/-- `tail_log_file` from progress_parser.py.  The file system is passed
explicitly: `none` models a missing file (Python's `FileNotFoundError`
branch), `some content` its current text.  `seek(p); read(); tell()` on a
text file returns the suffix from `p` and the position `max p len`
(seeking past the end reads nothing and leaves the position at `p`). -/
def tail_log_file (file : Option String) (last_position : Nat) : String × Nat :=
  match file with
  | none => ("", last_position)
  | some content => (⟨content.data.drop last_position⟩, max last_position content.data.length)

/-- Minimal JSON value, the shape `json.loads` can produce. -/
inductive JVal
  | jstr (s : String)
  | jnum (n : Int)
  | jbool (b : Bool)
  | jarr (xs : List JVal)
  | jobj (fields : List (String × JVal))
  | jnull

/-- Uncaught Python exceptions surfacing from rclone_wrapper on JSON of an
unexpected (but syntactically valid) shape. -/
inductive PyError
  | typeError       -- e.g. iterating an int
  | attributeError  -- e.g. `.get` on a non-dict
deriving DecidableEq

/-- `FileEntry` NamedTuple from rclone_wrapper.py. -/
structure FileEntry where
  name : String
  path : String
  size : Int
  modified : String
  is_dir : Bool
  mime_type : String := ""
deriving DecidableEq

/-- Dict lookup `fields.get(key)`. -/
def jGet (fields : List (String × JVal)) (key : String) : Option JVal :=
  (fields.find? (fun p => p.1 == key)).map (fun p => p.2)

/-- `entry.get(key, default)` expecting a string.  (Python stores an
ill-typed present value unchecked; a typed embedding keeps the default in
that degenerate case — no claim depends on it.) -/
def jGetStr (fields : List (String × JVal)) (key : String) (dflt : String) : String :=
  match jGet fields key with
  | some (.jstr s) => s
  | _ => dflt

/-- `entry.get(key, default)` expecting an integer. -/
def jGetInt (fields : List (String × JVal)) (key : String) (dflt : Int) : Int :=
  match jGet fields key with
  | some (.jnum n) => n
  | _ => dflt

/-- `entry.get(key, default)` expecting a boolean. -/
def jGetBool (fields : List (String × JVal)) (key : String) (dflt : Bool) : Bool :=
  match jGet fields key with
  | some (.jbool b) => b
  | _ => dflt

/-- One element of the lsjson array (`FileEntry(...)` construction in
`list_directory`, rclone_wrapper.py lines 103–112). -/
def entryOfJVal : JVal → Except PyError FileEntry
  | .jobj fields =>
      .ok { name := jGetStr fields "Name" "", path := jGetStr fields "Path" "",
            size := jGetInt fields "Size" 0, modified := jGetStr fields "ModTime" "",
            is_dir := jGetBool fields "IsDir" false, mime_type := jGetStr fields "MimeType" "" }
  | _ => .error .attributeError  -- `entry.get` on a non-dict element

/-- `list_directory` from rclone_wrapper.py, abstracted over the completed
process: `returncode` is the exit status and `stdout_json` the result of
`json.loads(result.stdout)` (`none` = `json.JSONDecodeError`, which the
source catches and turns into `[]`).  A syntactically valid body that is
not an array of objects would crash Python (uncaught), hence `.error`. -/
def list_directory (returncode : Int) (stdout_json : Option JVal) :
    Except PyError (List FileEntry) :=
  if returncode ≠ 0 then .ok []
  else
    match stdout_json with
    | none => .ok []
    | some (.jarr entries) => entries.mapM entryOfJVal
    | some _ => .error .typeError  -- `for entry in entries` on a non-list

/-- `get_directory_size` from rclone_wrapper.py, abstracted the same way:
non-zero exit or a `json.JSONDecodeError` yield `None`; a valid JSON body
that is not an object crashes on the `size_info.get(…)` debug call. -/
def get_directory_size (returncode : Int) (stdout_json : Option JVal) :
    Except PyError (Option (List (String × JVal))) :=
  if returncode ≠ 0 then .ok none
  else
    match stdout_json with
    | none => .ok none
    | some (.jobj fields) => .ok (some fields)
    | some _ => .error .attributeError

/-- One file of the logs directory: its name and modification time
(`os.path.getmtime`). -/
structure DirEntry where
  name : String
  mtime : Nat
deriving DecidableEq

/-- `filename.endswith(".log")`. -/
def isLogFile (e : DirEntry) : Bool := ".log".data.isSuffixOf e.name.data

/-- Stable insertion into a list sorted by modification time, newest first
(the effect of `log_files.sort(key=lambda x: x[1], reverse=True)`: ties
keep their original order). -/
def insertByMtimeDesc (e : DirEntry) : List DirEntry → List DirEntry
  | [] => [e]
  | x :: xs => if x.mtime > e.mtime then x :: insertByMtimeDesc e xs else e :: x :: xs

/-- Stable sort by modification time, newest first. -/
def sortByMtimeDesc : List DirEntry → List DirEntry
  | [] => []
  | x :: xs => insertByMtimeDesc x (sortByMtimeDesc xs)

/-- `cleanup_old_logs` from rclone_wrapper.py, over an explicit directory
listing: collect the `*.log` files, sort newest-first, delete everything
past the first `keep_count` (deletion = removal by file name; the
source logs and swallows `os.remove` failures, so deletion is modelled as
succeeding).  Returns the directory contents after the pass. -/
def cleanup_old_logs (dir : List DirEntry) (keep_count : Nat) : List DirEntry :=
  let log_files := dir.filter isLogFile
  let sorted := sortByMtimeDesc log_files
  let doomed := sorted.drop keep_count
  dir.filter (fun e => !(doomed.any (fun d => d.name == e.name)))

/-- The fields of a panel entry that `_do_copy_operation_async` consults. -/
structure PanelEntry where
  name : String
  is_dir : Bool
deriving DecidableEq

/-- Observable outcome of `_do_copy_operation_async` (main.py 1492–1591):
which items had an rclone process started (in order), which completed with
exit status 0 (their transfers persist — nothing is ever rolled back), and
the final status message shown via `update_status`. -/
structure CopyTrace where
  launched : List String
  transferred : List String
  status : String
deriving DecidableEq

/-- The per-item loop of `_do_copy_operation_async`.  `codes i` is the exit
status of the process started for the i-th item (0-based), `cancel i`
whether the user cancels while item i is in flight, `total` the queue
length (used by the success message).  Control flow as in the source:
start the process, poll; on cancel report "Copy cancelled" and halt; on a
non-zero exit report "Failed to copy <name>" and halt; on 0 advance; after
the last item report "Copied <n> item(s)". -/
def copyQueue (codes : Nat → Int) (cancel : Nat → Bool) (total : Nat) :
    Nat → List PanelEntry → CopyTrace
  | _, [] =>
      { launched := [], transferred := [],
        status := "Copied " ++ toString total ++ " item(s)" }
  | i, e :: rest =>
      if cancel i then
        { launched := [e.name], transferred := [], status := "Copy cancelled" }
      else if codes i = 0 then
        let t := copyQueue codes cancel total (i + 1) rest
        { launched := e.name :: t.launched, transferred := e.name :: t.transferred,
          status := t.status }
      else
        { launched := [e.name], transferred := [], status := "Failed to copy " ++ e.name }

/-- `_do_copy_operation_async` (main.py): process the queue strictly in
order from the first item. -/
def do_copy_operation_async (codes : Nat → Int) (cancel : Nat → Bool)
    (entries : List PanelEntry) : CopyTrace :=
  copyQueue codes cancel entries.length 0 entries

/-- A line on which `parse_log_content` clears the per-file list: neither
of the first two regexes matches and the `Transferring:` header test fires
(branch order of the source loop). -/
def clearsList (l : List Char) : Bool :=
  (transferredSearch (pstrip l)).isNone && (filesSearch (pstrip l)).isNone &&
    headerTest (pstrip l)

/-- The `FileProgress` a line contributes, if the loop treats it as a
per-file transferring line (i.e. it falls through the first three branches
and matches `TRANSFERRING_PATTERN`). -/
def fpOfLine (l : List Char) : Option FileProgress :=
  if (transferredSearch (pstrip l)).isSome || (filesSearch (pstrip l)).isSome ||
      headerTest (pstrip l) then none
  else (transferringSearch (pstrip l)).map mkFileProgress

/-- Whether processing a line sets `found_any`. -/
def foundLine (l : List Char) : Bool :=
  (transferredSearch (pstrip l)).isSome || (filesSearch (pstrip l)).isSome ||
    (fpOfLine l).isSome

theorem clearsList_eq_false_of_fpOfLine {l : List Char} {fp : FileProgress}
    (h : fpOfLine l = some fp) : clearsList l = false := by
  unfold fpOfLine at h
  unfold clearsList
  by_cases h3 : headerTest (pstrip l)
  · simp [h3] at h
  · simp [h3]

theorem procLine_transferring (st : LoopSt) (l : List Char) :
    (procLine st l).transferring =
      if clearsList l then []
      else
        match fpOfLine l with
        | some fp => st.transferring.filter (fun f => f.filename != fp.filename) ++ [fp]
        | none => st.transferring := by
  unfold procLine clearsList fpOfLine
  cases h1 : transferredSearch (pstrip l)
  · cases h2 : filesSearch (pstrip l)
    · by_cases h3 : headerTest (pstrip l)
      · simp [h1, h2, h3]
      · cases h4 : transferringSearch (pstrip l) <;> simp [h1, h2, h3, h4]
    · simp [h1, h2]
  · simp [h1]

theorem procLine_found (st : LoopSt) (l : List Char) :
    (procLine st l).found_any = (st.found_any || foundLine l) := by
  unfold procLine foundLine fpOfLine
  cases h1 : transferredSearch (pstrip l)
  · cases h2 : filesSearch (pstrip l)
    · by_cases h3 : headerTest (pstrip l)
      · simp [h1, h2, h3]
      · cases h4 : transferringSearch (pstrip l) <;> simp [h1, h2, h3, h4]
    · simp [h1, h2]
  · simp [h1]

theorem procLine_progress_tf (st : LoopSt) (l : List Char) :
    (procLine st l).progress.transferring_files = st.progress.transferring_files := by
  unfold procLine
  cases h1 : transferredSearch (pstrip l)
  · cases h2 : filesSearch (pstrip l)
    · by_cases h3 : headerTest (pstrip l)
      · simp [h1, h2, h3]
      · cases h4 : transferringSearch (pstrip l) <;> simp [h1, h2, h3, h4]
    · simp [h1, h2]
  · simp [h1]

theorem foldl_procLine_progress_tf (lines : List (List Char)) :
    ∀ st : LoopSt, (lines.foldl procLine st).progress.transferring_files
      = st.progress.transferring_files := by
  induction lines with
  | nil => intro st; rfl
  | cons l ls ih => intro st; rw [List.foldl_cons, ih, procLine_progress_tf]

theorem foldl_procLine_found (lines : List (List Char)) :
    ∀ st : LoopSt, (lines.foldl procLine st).found_any
      = (st.found_any || lines.any foundLine) := by
  induction lines with
  | nil => intro st; simp
  | cons l ls ih =>
    intro st
    rw [List.foldl_cons, ih, procLine_found, List.any_cons, Bool.or_assoc]

theorem foldl_procLine_transferring_nil (lines : List (List Char))
    (h : ∀ l ∈ lines, fpOfLine l = none) :
    ∀ st : LoopSt, st.transferring = [] → (lines.foldl procLine st).transferring = [] := by
  induction lines with
  | nil => intro st hst; exact hst
  | cons l ls ih =>
    intro st hst
    rw [List.foldl_cons]
    refine ih (fun m hm => h m (List.mem_cons_of_mem _ hm)) _ ?_
    rw [procLine_transferring, h l (List.mem_cons_self _ _), hst]
    split <;> rfl

theorem filter_upsert_self (T : List FileProgress) (g : FileProgress) :
    ((T.filter (fun f => f.filename != g.filename) ++ [g]).filter
      (fun f => f.filename == g.filename)) = [g] := by
  rw [List.filter_append, List.filter_filter]
  have h1 : T.filter (fun a => (a.filename == g.filename) && (a.filename != g.filename)) = [] := by
    rw [List.filter_eq_nil_iff]
    intro a _
    by_cases ha : a.filename = g.filename <;> simp [ha]
  rw [h1]
  simp

theorem filter_upsert_other (T : List FileProgress) (g : FileProgress) (n : String)
    (hne : g.filename ≠ n) :
    ((T.filter (fun f => f.filename != g.filename) ++ [g]).filter
      (fun f => f.filename == n)) = T.filter (fun f => f.filename == n) := by
  rw [List.filter_append, List.filter_filter]
  have h1 : List.filter (fun f => f.filename == n) [g] = [] := by simp [hne]
  rw [h1, List.append_nil]
  apply List.filter_congr
  intro f _
  by_cases hf : f.filename = n
  · simp [hf, Ne.symm hne]
  · simp [hf]

theorem foldl_procLine_filter_fixed (n : String) (lines : List (List Char))
    (h : ∀ l ∈ lines, clearsList l = false ∧ ∀ g, fpOfLine l = some g → g.filename ≠ n) :
    ∀ st : LoopSt,
      ((lines.foldl procLine st).transferring.filter (fun f => f.filename == n))
        = st.transferring.filter (fun f => f.filename == n) := by
  induction lines with
  | nil => intro st; rfl
  | cons l ls ih =>
    intro st
    rw [List.foldl_cons, ih (fun m hm => h m (List.mem_cons_of_mem _ hm))]
    obtain ⟨hc, hfp⟩ := h l (List.mem_cons_self _ _)
    rw [procLine_transferring, hc]
    cases hl : fpOfLine l with
    | none => simp
    | some g =>
      simp only [Bool.false_eq_true, if_false]
      exact filter_upsert_other st.transferring g n (hfp g hl)

theorem foldl_procLine_transferring_append (lines : List (List Char)) :
    ∀ st : LoopSt, (∀ l ∈ lines, clearsList l = false) →
      ((lines.filterMap fpOfLine).Pairwise (fun a b => a.filename ≠ b.filename)) →
      (∀ g ∈ lines.filterMap fpOfLine, ∀ a ∈ st.transferring, a.filename ≠ g.filename) →
      (lines.foldl procLine st).transferring = st.transferring ++ lines.filterMap fpOfLine := by
  induction lines with
  | nil => intro st _ _ _; simp
  | cons l ls ih =>
    intro st hclear hpw hdis
    rw [List.foldl_cons]
    have hstep := procLine_transferring st l
    rw [hclear l (List.mem_cons_self _ _)] at hstep
    simp only [Bool.false_eq_true, if_false] at hstep
    cases hl : fpOfLine l with
    | none =>
      rw [hl] at hstep
      rw [List.filterMap_cons, hl] at hpw hdis ⊢
      dsimp only at hstep hpw hdis ⊢
      have := ih (procLine st l)
        (fun m hm => hclear m (List.mem_cons_of_mem _ hm)) hpw
        (fun g hg a ha => hdis g hg a (by rwa [hstep] at ha))
      rw [this, hstep]
    | some g =>
      rw [hl] at hstep
      rw [List.filterMap_cons, hl] at hpw hdis ⊢
      dsimp only at hstep hpw hdis ⊢
      have hflt : st.transferring.filter (fun f => f.filename != g.filename)
          = st.transferring := by
        rw [List.filter_eq_self]
        intro a ha
        have := hdis g (List.mem_cons_self _ _) a ha
        simp [this]
      rw [hflt] at hstep
      rw [List.pairwise_cons] at hpw
      have := ih (procLine st l)
        (fun m hm => hclear m (List.mem_cons_of_mem _ hm)) hpw.2
        (fun g2 hg2 a ha => by
          rw [hstep] at ha
          rcases List.mem_append.mp ha with ha1 | ha2
          · exact hdis g2 (List.mem_cons_of_mem _ hg2) a ha1
          · rw [List.mem_singleton.mp ha2]
            exact hpw.1 g2 hg2)
      rw [this, hstep, List.append_assoc]
      rfl

theorem fpOfLine_eq_none {l : List Char} (h : transferringSearch (pstrip l) = none) :
    fpOfLine l = none := by
  unfold fpOfLine
  rw [h]
  split <;> rfl

theorem parse_lines_eq (lines : List (List Char)) :
    parse_lines lines =
      (if (lines.foldl procLine initSt).found_any then
        some (if (lines.foldl procLine initSt).transferring.isEmpty
              then (lines.foldl procLine initSt).progress
              else { (lines.foldl procLine initSt).progress with
                     transferring_files := (lines.foldl procLine initSt).transferring })
       else none) := rfl

/-- C1, counterexample: a chunk consisting of just the `Transferring:`
section-header line and zero per-file lines does NOT yield a progress
result with an empty transferring-files list — the header branch never
sets `found_any`, so `parse_log_content` returns `None`.  This refutes the
claim as stated (it promises "a progress result whose transferring-files
list is empty" for every such chunk). -/
theorem c1_counterexample : parse_log_content "Transferring:" = none := by rfl

/-- C1 (corrected): whenever a chunk's lines split as
`pre ++ header :: post`, where `header` is a line the loop treats as a
`Transferring:` section header and no line of `post` matches the per-file
pattern, any snapshot `parse_log_content` produces has an empty
transferring-files list — the header reset guarantees stale filenames
cannot linger in the parser's own output.  (When nothing in the chunk
matched, no snapshot is produced at all, per the counterexample.) -/
theorem c1_header_reset_amended (content : String) (pre post : List (List Char))
    (hline : List Char) (p : ProgressData)
    (hsplit : splitlines content.data = pre ++ hline :: post)
    (hclear : clearsList hline = true)
    (hpost : ∀ m ∈ post, transferringSearch (pstrip m) = none)
    (hp : parse_log_content content = some p) :
    p.transferring_files = [] := by
  have hfp : ∀ m ∈ post, fpOfLine m = none := fun m hm => fpOfLine_eq_none (hpost m hm)
  have hL : splitlines content.data = (pre ++ [hline]) ++ post := by rw [hsplit]; simp
  unfold parse_log_content at hp
  rw [parse_lines_eq, hL, List.foldl_append, List.foldl_append, List.foldl_cons,
    List.foldl_nil] at hp
  set st1 := procLine (pre.foldl procLine initSt) hline with hst1
  have hT1 : st1.transferring = [] := by
    rw [hst1, procLine_transferring, hclear]
    rfl
  have hT2 : (post.foldl procLine st1).transferring = [] :=
    foldl_procLine_transferring_nil post hfp st1 hT1
  rw [hT2] at hp
  simp only [List.isEmpty_nil, if_true] at hp
  split at hp
  · have hpeq : p = (post.foldl procLine st1).progress := by
      exact (Option.some_inj.mp hp).symm
    rw [hpeq, foldl_procLine_progress_tf, hst1, procLine_progress_tf,
      foldl_procLine_progress_tf]
    rfl
  · exact absurd hp (by simp)

/-- C1, witness for the corrected claim: a chunk with a files-count line,
then a `Transferring:` header, then nothing, parses to a snapshot whose
transferring-files list is empty. -/
theorem c1_header_reset_witness :
    clearsList "Transferring:".data = true ∧
    parse_log_content "Transferred:     0 / 1, 0%\nTransferring:" =
      some { files_transferred := 0, total_files := 1 } ∧
    ({ files_transferred := 0, total_files := 1 : ProgressData }).transferring_files = [] := by
  refine ⟨by decide, by decide, ?_⟩
  exact c1_header_reset_amended "Transferred:     0 / 1, 0%\nTransferring:"
    ["Transferred:     0 / 1, 0%".data] [] "Transferring:".data
    { files_transferred := 0, total_files := 1 }
    (by decide) (by decide) (by simp) (by decide)

/-- C3, counterexample: a chunk with two per-file lines for `a.txt`
followed by a `Transferring:` section header yields a snapshot with NO
FileProgress for `a.txt` at all (the header clears the accumulated list),
refuting "exactly one FileProgress carrying the values of the last such
line" as universally stated. -/
theorem c3_counterexample :
    (parse_log_content
        " * a.txt: 10% /1Mi, 1Ki/s, 1m\n * a.txt: 50% /1Mi, 1Ki/s, 1m\nTransferring:").map
      ProgressData.transferring_files = some [] := by decide

/-- C3 (corrected): (1) if a chunk contains a per-file line for some
filename and no later line clears the list (header) or re-matches that
filename, the snapshot contains exactly one FileProgress for that
filename, carrying the values of that (last) line — in particular the
two-line `a.txt` 10%/50% example yields exactly one entry at 50%;
(2) when no line clears the list and the per-file lines carry pairwise
distinct filenames, the snapshot's list is exactly those files in order of
first appearance.  (The claim as frozen fails only when a `Transferring:`
header follows the duplicate lines — see the counterexample.) -/
theorem c3_dedup_amended :
    (∀ (content : String) (pre post : List (List Char)) (l : List Char) (fp : FileProgress),
        splitlines content.data = pre ++ l :: post →
        fpOfLine l = some fp →
        (∀ m ∈ post, clearsList m = false ∧
          ∀ g, fpOfLine m = some g → g.filename ≠ fp.filename) →
        (parse_log_content content).map
            (fun p => p.transferring_files.filter (fun f => f.filename == fp.filename))
          = some [fp]) ∧
    (∀ (content : String) (p : ProgressData),
        (∀ l ∈ splitlines content.data, clearsList l = false) →
        ((splitlines content.data).filterMap fpOfLine).Pairwise
          (fun a b => a.filename ≠ b.filename) →
        parse_log_content content = some p →
        p.transferring_files = (splitlines content.data).filterMap fpOfLine) := by
  constructor
  · intro content pre post l fp hsplit hfp hpost
    have hL : splitlines content.data = (pre ++ [l]) ++ post := by rw [hsplit]; simp
    unfold parse_log_content
    rw [parse_lines_eq, hL, List.foldl_append, List.foldl_append, List.foldl_cons,
      List.foldl_nil]
    set st1 := procLine (pre.foldl procLine initSt) l with hst1
    have h1 : st1.transferring
        = (pre.foldl procLine initSt).transferring.filter
            (fun f => f.filename != fp.filename) ++ [fp] := by
      rw [hst1, procLine_transferring, clearsList_eq_false_of_fpOfLine hfp, hfp]
      simp
    have h3 : (post.foldl procLine st1).transferring.filter
        (fun f => f.filename == fp.filename) = [fp] := by
      rw [foldl_procLine_filter_fixed fp.filename post hpost st1, h1]
      exact filter_upsert_self _ fp
    have hfound : (post.foldl procLine st1).found_any = true := by
      rw [foldl_procLine_found, hst1, procLine_found]
      have : foundLine l = true := by
        unfold foundLine
        rw [hfp]
        simp
      rw [this]
      simp
    have hne : (post.foldl procLine st1).transferring.isEmpty = false := by
      rw [List.isEmpty_eq_false]
      intro hT
      rw [hT] at h3
      simp at h3
    rw [hfound, hne]
    simpa using h3
  · intro content p hclear hpw hp
    have hdis : ∀ g ∈ (splitlines content.data).filterMap fpOfLine,
        ∀ a ∈ initSt.transferring, a.filename ≠ g.filename := by
      intro g _ a ha
      simp [initSt] at ha
    have hT := foldl_procLine_transferring_append (splitlines content.data) initSt
      hclear hpw hdis
    rw [show initSt.transferring = [] from rfl, List.nil_append] at hT
    unfold parse_log_content at hp
    rw [parse_lines_eq] at hp
    split at hp
    · cases hEm : ((splitlines content.data).foldl procLine initSt).transferring.isEmpty
      · rw [hEm] at hp
        simp only [Bool.false_eq_true, if_false] at hp
        have hpeq := (Option.some_inj.mp hp).symm
        rw [hpeq]
        exact hT
      · rw [hEm] at hp
        simp only [if_true] at hp
        have hpeq := (Option.some_inj.mp hp).symm
        have hnil : ((splitlines content.data).foldl procLine initSt).transferring = [] :=
          List.isEmpty_iff.mp hEm
        rw [hpeq, foldl_procLine_progress_tf]
        rw [hnil] at hT
        rw [← hT]
        rfl
    · exact absurd hp (by simp)

/-- C3, witness for the corrected claim: the two-line duplicate-`a.txt`
chunk from the spec yields exactly one FileProgress for `a.txt`, at 50%,
with the values of the second line. -/
theorem c3_dedup_witness :
    fpOfLine " * a.txt: 50% /1Mi, 1Ki/s, 1m".data
      = some { filename := "a.txt", percentage := 50, size := "1Mi",
               speed := "1Ki/s", eta := "1m" } ∧
    (parse_log_content " * a.txt: 10% /1Mi, 1Ki/s, 1m\n * a.txt: 50% /1Mi, 1Ki/s, 1m").map
        (fun p => p.transferring_files.filter
          (fun f => f.filename ==
            FileProgress.filename { filename := "a.txt", percentage := 50, size := "1Mi",
                                    speed := "1Ki/s", eta := "1m" }))
      = some [{ filename := "a.txt", percentage := 50, size := "1Mi",
                speed := "1Ki/s", eta := "1m" }] := by
  refine ⟨by decide, ?_⟩
  exact c3_dedup_amended.1 " * a.txt: 10% /1Mi, 1Ki/s, 1m\n * a.txt: 50% /1Mi, 1Ki/s, 1m"
    [" * a.txt: 10% /1Mi, 1Ki/s, 1m".data] [] " * a.txt: 50% /1Mi, 1Ki/s, 1m".data
    { filename := "a.txt", percentage := 50, size := "1Mi", speed := "1Ki/s", eta := "1m" }
    (by decide) (by decide) (by simp)

/-- C4 (confirmed): for every file state and prior offset, the offset
returned by `tail_log_file` equals the prior offset plus the length of the
content actually returned (hence it is non-decreasing), and a missing file
yields empty content with the offset unchanged — so successive reads of a
growing file never re-deliver the same bytes. -/
theorem c4_tail_offset (file : Option String) (last_position : Nat) :
    ((tail_log_file file last_position).2
        = last_position + (tail_log_file file last_position).1.length) ∧
    last_position ≤ (tail_log_file file last_position).2 ∧
    tail_log_file none last_position = ("", last_position) := by
  refine ⟨?_, ?_, rfl⟩
  · cases file with
    | none => rfl
    | some content =>
      show max last_position content.data.length
        = last_position + (content.data.drop last_position).length
      rw [List.length_drop]
      omega
  · cases file with
    | none => exact Nat.le_refl _
    | some content => exact Nat.le_max_left _ _

/-- C5 (confirmed): parsing the single literal line
`Transferred:   15.031 MiB / 233.367 MiB, 6%, 817.606 KiB/s, ETA 4m33s`
yields a snapshot with overall_percentage 6, transferred_str "15.031 MiB",
total_str "233.367 MiB", overall_speed "817.606 KiB/s" and overall_eta
"4m33s"; the files-count fields keep their defaults, i.e. the line is
classified as an overall-transferred line, not a files-count line. -/
theorem c5_transferred_line :
    parse_log_content "Transferred:   15.031 MiB / 233.367 MiB, 6%, 817.606 KiB/s, ETA 4m33s" =
      some { transferred_str := "15.031 MiB", total_str := "233.367 MiB",
             overall_percentage := 6, overall_speed := "817.606 KiB/s",
             overall_eta := "4m33s" } := by rfl

/-- C6 (confirmed): parsing the single literal line `Transferred:     0 / 1, 0%`
yields a snapshot with files_transferred 0 and total_files 1; the
overall-transferred fields keep their defaults (the line lacks the
speed/ETA suffix, so the overall pattern — tried first — does not match and
the files-count pattern does). -/
theorem c6_files_line :
    parse_log_content "Transferred:     0 / 1, 0%" =
      some { files_transferred := 0, total_files := 1 } := by rfl

/-- C7 (confirmed): if no line of a chunk matches the overall-transferred
pattern, the files-count pattern or the per-file transferring pattern,
`parse_log_content` returns no snapshot (`none`) — a caller's
last-known-good snapshot is never overwritten by an empty one. -/
theorem c7_unrecognized_none (content : String)
    (h : ∀ l ∈ splitlines content.data,
      transferredSearch (pstrip l) = none ∧ filesSearch (pstrip l) = none ∧
        transferringSearch (pstrip l) = none) :
    parse_log_content content = none := by
  unfold parse_log_content
  rw [parse_lines_eq]
  have hfound : ((splitlines content.data).foldl procLine initSt).found_any = false := by
    rw [foldl_procLine_found]
    have : (splitlines content.data).any foundLine = false := by
      rw [List.any_eq_false]
      intro l hl
      obtain ⟨h1, h2, h3⟩ := h l hl
      unfold foundLine
      rw [h1, h2, fpOfLine_eq_none h3]
      simp
    rw [this]
    rfl
  rw [hfound]
  rfl

/-- C7, witness: a chunk of ordinary rclone log chatter (an INFO line and
a bare `Transferring:` header) matches none of the three patterns and
parses to `none`. -/
theorem c7_unrecognized_witness :
    (∀ l ∈ splitlines "2025/01/01 12:00:00 INFO  : starting\nTransferring:\n".data,
      transferredSearch (pstrip l) = none ∧ filesSearch (pstrip l) = none ∧
        transferringSearch (pstrip l) = none) ∧
    parse_log_content "2025/01/01 12:00:00 INFO  : starting\nTransferring:\n" = none := by
  refine ⟨by decide, ?_⟩
  exact c7_unrecognized_none _ (by decide)

theorem copyQueue_fail (codes : Nat → Int) (total : Nat) :
    ∀ (es : List PanelEntry) (i k : Nat) (hk : k < es.length),
      (∀ j, j < k → codes (i + j) = 0) → codes (i + k) ≠ 0 →
      copyQueue codes (fun _ => false) total i es =
        { launched := (es.take (k + 1)).map PanelEntry.name,
          transferred := (es.take k).map PanelEntry.name,
          status := "Failed to copy " ++ (es.get ⟨k, hk⟩).name } := by
  intro es
  induction es with
  | nil => intro i k hk _ _; simp at hk
  | cons e rest ih =>
    intro i k hk h0 hf
    cases k with
    | zero =>
      have hcf : ¬ codes i = 0 := by simpa using hf
      unfold copyQueue
      simp [hcf]
    | succ k =>
      have hc0 : codes i = 0 := by
        have := h0 0 (Nat.succ_pos k)
        simpa using this
      have hrec := ih (i + 1) k (by simpa using hk)
        (fun j hj => by
          have := h0 (j + 1) (by omega)
          rwa [show i + (j + 1) = i + 1 + j from by omega] at this)
        (by
          rwa [show i + (k + 1) = i + 1 + k from by omega] at hf)
      unfold copyQueue
      simp only [Bool.false_eq_true, if_false, hc0, if_pos]
      rw [hrec]
      simp

/-- C2 (confirmed): the copy coordinator processes the queue strictly in
order and halts at the first item whose process exits non-zero: exactly
the items up to and including the failing one have a process started,
exactly the items before it completed (their transfers persist — there is
no rollback step anywhere in the loop), no later item is attempted, and
the reported status names the failing item. -/
theorem c2_queue_halts_on_failure (codes : Nat → Int) (entries : List PanelEntry) (k : Nat)
    (hk : k < entries.length) (h0 : ∀ j, j < k → codes j = 0) (hf : codes k ≠ 0) :
    do_copy_operation_async codes (fun _ => false) entries =
      { launched := (entries.take (k + 1)).map PanelEntry.name,
        transferred := (entries.take k).map PanelEntry.name,
        status := "Failed to copy " ++ (entries.get ⟨k, hk⟩).name } := by
  unfold do_copy_operation_async
  exact copyQueue_fail codes entries.length entries 0 k hk
    (fun j hj => by simpa using h0 j hj) (by simpa using hf)

/-- C2, witness: a queue of 3 items where item 2 (index 1) exits with
status 1 — item 1 is transferred, item 3 is never started, and the status
message names item 2. -/
theorem c2_queue_halts_witness :
    (1 : Nat) < ([⟨"item1", false⟩, ⟨"item2", false⟩, ⟨"item3", true⟩] : List PanelEntry).length ∧
    (∀ j : Nat, j < 1 → (if j = 1 then (1 : Int) else 0) = 0) ∧
    (if (1 : Nat) = 1 then (1 : Int) else 0) ≠ 0 ∧
    do_copy_operation_async (fun n => if n = 1 then (1 : Int) else 0) (fun _ => false)
        [⟨"item1", false⟩, ⟨"item2", false⟩, ⟨"item3", true⟩] =
      { launched := ["item1", "item2"], transferred := ["item1"],
        status := "Failed to copy item2" } := by
  refine ⟨by decide, ?_, by decide, ?_⟩
  · intro j hj
    have : j = 0 := by omega
    simp [this]
  · have := c2_queue_halts_on_failure (fun n => if n = 1 then (1 : Int) else 0)
      [⟨"item1", false⟩, ⟨"item2", false⟩, ⟨"item3", true⟩] 1 (by decide)
      (fun j hj => by
        have : j = 0 := by omega
        simp [this]) (by decide)
    rw [this]
    decide

/-- C9 (confirmed): a listing/size response body that is not valid JSON
(a `json.JSONDecodeError` from `json.loads`) is treated as an empty
result, not an exception: `list_directory` returns an empty entry list and
`get_directory_size` returns `None`, whatever the exit status. -/
theorem c9_malformed_json_empty (returncode : Int) :
    list_directory returncode none = .ok [] ∧
    get_directory_size returncode none = .ok none := by
  unfold list_directory get_directory_size
  by_cases h : returncode = 0 <;> simp [h]

/-- C10 (confirmed): any line that falls through the first two patterns
and matches the per-file transferring pattern makes `parse_progress_line`
raise (the branch calls `_replace` with the field names `current_file`,
`file_percentage`, `file_size`, `file_speed`, `file_eta`, none of which
exist on `ProgressData`) — it never returns a ProgressData on that path. -/
theorem c10_parse_progress_line_raises (line : String) (cd : Option ProgressData)
    (h1 : transferredSearch (pstrip line.data) = none)
    (h2 : filesSearch (pstrip line.data) = none)
    (h3 : (transferringSearch (pstrip line.data)).isSome = true) :
    parse_progress_line line cd = .error .unexpectedFieldNames := by
  simp only [parse_progress_line, h1, h2]
  cases hs : transferringSearch (pstrip line.data) with
  | none => rw [hs] at h3; simp at h3
  | some g => rfl

/-- C10, witness: the spec's example per-file line makes
`parse_progress_line` raise instead of returning a snapshot. -/
theorem c10_parse_progress_line_witness :
    transferredSearch (pstrip " * filename.mp4: 6% /233.367Mi, 817.618Ki/s, 4m33s".data)
        = none ∧
    filesSearch (pstrip " * filename.mp4: 6% /233.367Mi, 817.618Ki/s, 4m33s".data) = none ∧
    (transferringSearch
        (pstrip " * filename.mp4: 6% /233.367Mi, 817.618Ki/s, 4m33s".data)).isSome = true ∧
    parse_progress_line " * filename.mp4: 6% /233.367Mi, 817.618Ki/s, 4m33s" none =
      .error .unexpectedFieldNames := by
  refine ⟨by decide, by decide, by decide, ?_⟩
  exact c10_parse_progress_line_raises _ none (by decide) (by decide) (by decide)

theorem insertByMtimeDesc_perm (e : DirEntry) (l : List DirEntry) :
    List.Perm (insertByMtimeDesc e l) (e :: l) := by
  induction l with
  | nil => exact List.Perm.refl _
  | cons x xs ih =>
    unfold insertByMtimeDesc
    by_cases h : x.mtime > e.mtime
    · simp only [if_pos h]
      exact (ih.cons x).trans (List.Perm.swap e x xs)
    · simp only [if_neg h]
      exact List.Perm.refl _

theorem sortByMtimeDesc_perm (l : List DirEntry) : List.Perm (sortByMtimeDesc l) l := by
  induction l with
  | nil => exact List.Perm.refl _
  | cons x xs ih =>
    unfold sortByMtimeDesc
    exact (insertByMtimeDesc_perm x (sortByMtimeDesc xs)).trans (ih.cons x)

theorem insertByMtimeDesc_sorted (e : DirEntry) (l : List DirEntry)
    (h : l.Pairwise (fun a b => b.mtime ≤ a.mtime)) :
    (insertByMtimeDesc e l).Pairwise (fun a b => b.mtime ≤ a.mtime) := by
  induction l with
  | nil => simp [insertByMtimeDesc]
  | cons x xs ih =>
    rw [List.pairwise_cons] at h
    unfold insertByMtimeDesc
    by_cases hx : x.mtime > e.mtime
    · simp only [if_pos hx]
      rw [List.pairwise_cons]
      refine ⟨?_, ih h.2⟩
      intro y hy
      rcases List.mem_cons.mp ((insertByMtimeDesc_perm e xs).mem_iff.mp hy) with rfl | hy3
      · omega
      · exact h.1 y hy3
    · simp only [if_neg hx]
      rw [List.pairwise_cons]
      constructor
      · intro y hy
        rcases List.mem_cons.mp hy with rfl | hy2
        · omega
        · have := h.1 y hy2
          omega
      · rw [List.pairwise_cons]
        exact h

theorem sortByMtimeDesc_sorted (l : List DirEntry) :
    (sortByMtimeDesc l).Pairwise (fun a b => b.mtime ≤ a.mtime) := by
  induction l with
  | nil => simp [sortByMtimeDesc]
  | cons x xs ih => exact insertByMtimeDesc_sorted x _ ih

theorem sortByMtimeDesc_strict (l : List DirEntry)
    (hne : l.Pairwise (fun a b => a.mtime ≠ b.mtime)) :
    (sortByMtimeDesc l).Pairwise (fun a b => b.mtime < a.mtime) := by
  have hne2 : (sortByMtimeDesc l).Pairwise (fun a b => a.mtime ≠ b.mtime) :=
    ((sortByMtimeDesc_perm l).pairwise_iff (fun hxy => Ne.symm hxy)).mpr hne
  have hle := sortByMtimeDesc_sorted l
  exact (hle.and hne2).imp (fun h => by omega)

theorem mem_drop_iff_rank :
    ∀ (L : List DirEntry), L.Pairwise (fun a b => b.mtime < a.mtime) →
      ∀ e ∈ L, ∀ k,
        (e ∈ L.drop k ↔ k ≤ L.countP (fun g => decide (e.mtime < g.mtime))) := by
  intro L
  induction L with
  | nil => intro _ e he; simp at he
  | cons x xs ih =>
    intro hpw e he k
    rw [List.pairwise_cons] at hpw
    cases k with
    | zero => simpa using he
    | succ k =>
      rw [List.drop_succ_cons, List.countP_cons]
      rcases List.mem_cons.mp he with rfl | hexs
      · have hc0 : xs.countP (fun g => decide (e.mtime < g.mtime)) = 0 := by
          rw [List.countP_eq_zero]
          intro g hg
          have := hpw.1 g hg
          simp only [decide_eq_true_eq]
          omega
        have hpx : (decide (e.mtime < e.mtime)) = false := by simp
        rw [hc0, hpx]
        simp only [Bool.false_eq_true, if_false, Nat.add_zero]
        constructor
        · intro hmem
          have h1 : e ∈ xs := List.drop_subset _ _ hmem
          have := hpw.1 e h1
          omega
        · intro hk
          omega
      · have hpx : (decide (e.mtime < x.mtime)) = true := by
          simp only [decide_eq_true_eq]
          exact hpw.1 e hexs
        rw [hpx]
        have hih := ih hpw.2 e hexs k
        rw [hih]
        simp only [if_true]
        omega

/-- C8 (confirmed): over a directory with uniquely-named files whose
`*.log` files have pairwise distinct modification times, the retention
pass with `keep_count = N` keeps exactly the non-`.log` files plus those
log files with fewer than N strictly more recent log files — i.e. it
deletes exactly the log files other than the N most recently modified
ones, and leaves non-`.log` files untouched. -/
theorem c8_cleanup_keeps_recent (dir : List DirEntry) (keep_count : Nat)
    (hnames : (dir.map DirEntry.name).Nodup)
    (hmt : (dir.filter isLogFile).Pairwise (fun a b => a.mtime ≠ b.mtime)) :
    cleanup_old_logs dir keep_count =
      dir.filter (fun e => !isLogFile e ||
        decide ((dir.filter isLogFile).countP
          (fun g => decide (e.mtime < g.mtime)) < keep_count)) := by
  unfold cleanup_old_logs
  apply List.filter_congr
  intro e he
  set logs := dir.filter isLogFile with hlogs
  set sorted := sortByMtimeDesc logs with hsorted
  set doomed := sorted.drop keep_count with hdoomed
  have hperm : List.Perm sorted logs := sortByMtimeDesc_perm logs
  have hsubdir : ∀ d ∈ doomed, d ∈ dir := by
    intro d hd
    have h1 : d ∈ sorted := List.drop_subset _ _ hd
    have h2 : d ∈ logs := hperm.mem_iff.mp h1
    exact (List.mem_filter.mp h2).1
  have hinj := List.inj_on_of_nodup_map hnames
  by_cases hlog : isLogFile e
  · have hel : e ∈ logs := List.mem_filter.mpr ⟨he, hlog⟩
    have hes : e ∈ sorted := hperm.mem_iff.mpr hel
    have hstrict := sortByMtimeDesc_strict logs hmt
    have hrank := mem_drop_iff_rank sorted hstrict e hes keep_count
    have hcnt : sorted.countP (fun g => decide (e.mtime < g.mtime))
        = logs.countP (fun g => decide (e.mtime < g.mtime)) := hperm.countP_eq _
    rw [hcnt] at hrank
    have hany : doomed.any (fun d => d.name == e.name) = true ↔ e ∈ doomed := by
      constructor
      · intro h
        obtain ⟨d, hd, hdname⟩ := List.any_eq_true.mp h
        have hde : d = e := hinj (hsubdir d hd) he (by simpa using hdname)
        rwa [hde] at hd
      · intro h
        exact List.any_eq_true.mpr ⟨e, h, by simp⟩
    by_cases hlt : logs.countP (fun g => decide (e.mtime < g.mtime)) < keep_count
    · have hnot : ¬ e ∈ doomed := by
        intro hmem
        have := hrank.mp hmem
        omega
      have hanyf : doomed.any (fun d => d.name == e.name) = false := by
        cases hny : doomed.any (fun d => d.name == e.name)
        · rfl
        · exact absurd (hany.mp hny) hnot
      rw [hanyf]
      simp [hlog, hlt]
    · have hmem : e ∈ doomed := hrank.mpr (by omega)
      have hanyt := hany.mpr hmem
      rw [hanyt]
      simp [hlog, hlt]
  · have hanyf : doomed.any (fun d => d.name == e.name) = false := by
      rw [List.any_eq_false]
      intro d hd
      simp only [beq_iff_eq]
      intro hname
      have hde : d = e := hinj (hsubdir d hd) he hname
      have hdl : isLogFile d := by
        have h2 : d ∈ logs := hperm.mem_iff.mp (List.drop_subset _ _ hd)
        exact (List.mem_filter.mp h2).2
      rw [hde] at hdl
      exact hlog hdl
    rw [hanyf]
    simp [hlog]

/-- C8, witness: a logs directory with 8 uniquely-named `*.log` files with
distinct modification times plus one non-log file, `keep_count = 5`: the
retention pass keeps exactly the 5 most recently modified log files and
the non-log file. -/
theorem c8_cleanup_witness :
    (([⟨"a1.log", 1⟩, ⟨"a2.log", 2⟩, ⟨"a3.log", 3⟩, ⟨"a4.log", 4⟩, ⟨"a5.log", 5⟩,
       ⟨"a6.log", 6⟩, ⟨"a7.log", 7⟩, ⟨"a8.log", 8⟩, ⟨"notes.txt", 9⟩] :
        List DirEntry).map DirEntry.name).Nodup ∧
    (([⟨"a1.log", 1⟩, ⟨"a2.log", 2⟩, ⟨"a3.log", 3⟩, ⟨"a4.log", 4⟩, ⟨"a5.log", 5⟩,
       ⟨"a6.log", 6⟩, ⟨"a7.log", 7⟩, ⟨"a8.log", 8⟩, ⟨"notes.txt", 9⟩] :
        List DirEntry).filter isLogFile).Pairwise (fun a b => a.mtime ≠ b.mtime) ∧
    cleanup_old_logs
        [⟨"a1.log", 1⟩, ⟨"a2.log", 2⟩, ⟨"a3.log", 3⟩, ⟨"a4.log", 4⟩, ⟨"a5.log", 5⟩,
         ⟨"a6.log", 6⟩, ⟨"a7.log", 7⟩, ⟨"a8.log", 8⟩, ⟨"notes.txt", 9⟩] 5 =
      ([⟨"a1.log", 1⟩, ⟨"a2.log", 2⟩, ⟨"a3.log", 3⟩, ⟨"a4.log", 4⟩, ⟨"a5.log", 5⟩,
        ⟨"a6.log", 6⟩, ⟨"a7.log", 7⟩, ⟨"a8.log", 8⟩, ⟨"notes.txt", 9⟩] :
          List DirEntry).filter (fun e => !isLogFile e ||
        decide ((([⟨"a1.log", 1⟩, ⟨"a2.log", 2⟩, ⟨"a3.log", 3⟩, ⟨"a4.log", 4⟩, ⟨"a5.log", 5⟩,
           ⟨"a6.log", 6⟩, ⟨"a7.log", 7⟩, ⟨"a8.log", 8⟩, ⟨"notes.txt", 9⟩] :
            List DirEntry).filter isLogFile).countP
          (fun g => decide (e.mtime < g.mtime)) < 5)) ∧
    cleanup_old_logs
        [⟨"a1.log", 1⟩, ⟨"a2.log", 2⟩, ⟨"a3.log", 3⟩, ⟨"a4.log", 4⟩, ⟨"a5.log", 5⟩,
         ⟨"a6.log", 6⟩, ⟨"a7.log", 7⟩, ⟨"a8.log", 8⟩, ⟨"notes.txt", 9⟩] 5 =
      [⟨"a4.log", 4⟩, ⟨"a5.log", 5⟩, ⟨"a6.log", 6⟩, ⟨"a7.log", 7⟩, ⟨"a8.log", 8⟩,
       ⟨"notes.txt", 9⟩] := by
  refine ⟨by decide, by decide, ?_, by decide⟩
  exact c8_cleanup_keeps_recent
    [⟨"a1.log", 1⟩, ⟨"a2.log", 2⟩, ⟨"a3.log", 3⟩, ⟨"a4.log", 4⟩, ⟨"a5.log", 5⟩,
     ⟨"a6.log", 6⟩, ⟨"a7.log", 7⟩, ⟨"a8.log", 8⟩, ⟨"notes.txt", 9⟩] 5
    (by decide) (by decide)
